import Mathlib

/-!
Shallow embedding of the jsmongo embedded document store (src/jsmongo.js).

Modelling conventions, chosen once for the whole file:
* JavaScript values are the inductive type `Value`: null, booleans, numbers
  (modelled as integers; the claims under study involve no fractional or NaN
  arithmetic), strings, arrays and plain objects.  An object is an association
  list in key-insertion order, which is how JavaScript enumerates own keys.
* The JavaScript value `undefined` is represented by `Option.none` at the use
  sites where it arises (a missing object field, an out-of-bounds array read);
  a field whose value would be `undefined` is represented by the absence of
  the field, which is also how JSON serialization treats it.
* Reference equality of two distinct composite values (arrays, objects) is
  modelled as `false` in strict-equality positions: a query literal is a fresh
  object, never the same reference as a stored field value.
* The id generator (`Date.now` plus random bytes) is modelled by a counter in
  the store state rendered through `objectIdOf`, so successive draws differ.
* The filesystem is a map from (database directory, collection file base name)
  to the parsed content of the `.json` file.  `JSON.parse ∘ JSON.stringify` is
  the identity on the values modelled here (no undefined, integral numbers),
  so file content is modelled as the document list itself.
-/

namespace JsMongo

/-- Dynamically typed JavaScript values as stored in documents and queries. -/
inductive Value : Type where
  | null : Value
  | bool : Bool → Value
  | num  : Int → Value
  | str  : String → Value
  | arr  : List Value → Value
  | obj  : List (String × Value) → Value

/-- Documents and JavaScript object literals: association lists of fields in
key-insertion order. -/
abbrev Doc := List (String × Value)

/-- Property read `o[k]`: the first binding of the key, `none` for a missing
key (JavaScript `undefined`). -/
def alookup {α : Type} (k : String) : List (String × α) → Option α
  | [] => none
  | (k₁, v) :: rest => if k₁ = k then some v else alookup k rest

/-- Property write `o[k] = v`: overwrite in place when the key exists (keeping
its position), append otherwise — JavaScript own-property assignment. -/
def aset {α : Type} (k : String) (v : α) : List (String × α) → List (String × α)
  | [] => [(k, v)]
  | (k₁, v₁) :: rest => if k₁ = k then (k, v) :: rest else (k₁, v₁) :: aset k v rest

/-- Property removal `delete o[k]`, preserving the order of remaining keys. -/
def aerase {α : Type} (k : String) (l : List (String × α)) : List (String × α) :=
  l.filter (fun e => e.1 ≠ k)

/-- Keys of an object, in order. -/
def keysOf {α : Type} (l : List (String × α)) : List String := l.map (fun e => e.1)

/-- Object.assign(target, entries): assign each entry left to right. -/
def objAssign (t : Doc) (src : List (String × Value)) : Doc :=
  src.foldl (fun acc e => aset e.1 e.2 acc) t

/-- Object literal `{...entries}` built from scratch: later duplicates of a key
overwrite earlier ones in place, as in JavaScript. -/
def objOf (entries : List (String × Value)) : Doc := objAssign [] entries

/-- Own enumerable entries of an arbitrary value, as `Object.assign` and
spread see them: an object contributes its fields, an array its elements under
the index keys, a string its characters under the index keys, and primitives
contribute nothing. -/
def spreadEntries : Value → List (String × Value)
  | .obj fields => fields
  | .arr xs => (List.range xs.length).zip xs |>.map (fun p => (toString p.1, p.2))
  | .str s => (List.range s.length).zip s.toList |>.map
      (fun p => (toString p.1, Value.str (String.mk [p.2])))
  | _ => []

/-- JavaScript falsiness of a value (`!v`): null, false, 0 and the empty
string are falsy; every object or array reference is truthy. -/
def jsFalsy : Value → Bool
  | .null => true
  | .bool b => !b
  | .num n => n == 0
  | .str s => s == ""
  | .arr _ => false
  | .obj _ => false

/-- Falsiness of a possibly-absent value: an absent argument is `undefined`,
which is falsy. -/
def optFalsy : Option Value → Bool
  | none => true
  | some v => jsFalsy v

/-- Strict equality `a === b` between two present values: primitives compare
by value, composite values compare by reference, modelled as `false` for the
distinct references that arise between a query literal and stored data. -/
def jsStrictEq : Value → Value → Bool
  | .null, .null => true
  | .bool a, .bool b => a == b
  | .num a, .num b => a == b
  | .str a, .str b => a == b
  | _, _ => false

/-- Strict equality between a field read (possibly `undefined`) and a present
value: `undefined` equals no present value. -/
def jsStrictEqOpt : Option Value → Value → Bool
  | none, _ => false
  | some a, b => jsStrictEq a b

mutual

/-- JavaScript string coercion `String(v)`, used when a value becomes an
object property key (the index maps are keyed this way). -/
def toStr : Value → String
  | .null => "null"
  | .bool b => if b then "true" else "false"
  | .num n => toString n
  | .str s => s
  | .obj _ => "[object Object]"
  | .arr xs => String.intercalate "," (toStrList xs)

/-- Array elements under string coercion: null elements print as the empty
string inside a joined array. -/
def toStrList : List Value → List String
  | [] => []
  | .null :: rest => "" :: toStrList rest
  | v :: rest => toStr v :: toStrList rest

end

/-- Result of JavaScript ToNumber: an integer or NaN. -/
inductive JNum : Type where
  | nan : JNum
  | int : Int → JNum

/-- Numeric parse of a string under ToNumber, restricted to the integral
literals the claims exercise: optional sign and decimal digits; the empty or
all-blank string is 0; anything else is NaN. -/
def parseNum (s : String) : JNum :=
  let t := s.trim
  if t = "" then .int 0
  else
    let body := if t.startsWith "-" || t.startsWith "+" then t.drop 1 else t
    let sign : Int := if t.startsWith "-" then -1 else 1
    if body ≠ "" && body.toList.all Char.isDigit then
      .int (sign * (body.toList.foldl (fun n c => n * 10 + (c.toNat - 48)) 0 : Nat))
    else .nan

/-- ToNumber of a possibly-absent value: `undefined` is NaN, null is 0,
booleans are 0/1, strings parse, arrays coerce through their string form, and
plain objects are NaN. -/
def toNumber : Option Value → JNum
  | none => .nan
  | some .null => .int 0
  | some (.bool b) => .int (if b then 1 else 0)
  | some (.num n) => .int n
  | some (.str s) => parseNum s
  | some (.arr xs) => parseNum (toStr (.arr xs))
  | some (.obj _) => .nan

/-- ToPrimitive as the relational operators use it: arrays and objects become
their string form, everything else is unchanged. -/
def relPrim : Option Value → Option Value
  | some (.arr xs) => some (.str (toStr (.arr xs)))
  | some (.obj _) => some (.str "[object Object]")
  | x => x

/-- Abstract relational comparison shared by `< <= > >=`: two strings compare
lexicographically, otherwise both sides coerce to numbers and NaN makes the
comparison undefined (`none`). -/
def jsCmp (x y : Option Value) : Option Ordering :=
  match relPrim x, relPrim y with
  | some (.str a), some (.str b) => some (compare a b)
  | px, py =>
    match toNumber px, toNumber py with
    | .int a, .int b => some (compare a b)
    | _, _ => none

/-- JavaScript `x > y` on a field read and a query value. -/
def jsGtB (x : Option Value) (y : Value) : Bool := jsCmp x (some y) == some .gt

/-- JavaScript `x < y`. -/
def jsLtB (x : Option Value) (y : Value) : Bool := jsCmp x (some y) == some .lt

/-- JavaScript `x >= y`: false when the comparison is undefined. -/
def jsGeB (x : Option Value) (y : Value) : Bool :=
  match jsCmp x (some y) with
  | some .gt => true
  | some .eq => true
  | _ => false

/-- JavaScript `x <= y`. -/
def jsLeB (x : Option Value) (y : Value) : Bool :=
  match jsCmp x (some y) with
  | some .lt => true
  | some .eq => true
  | _ => false

/-- Array.includes under SameValueZero, which coincides with strict equality
on the values modelled here; an absent (`undefined`) needle is never found
since stored arrays hold only present values. -/
def includesOpt (xs : List Value) : Option Value → Bool
  | none => false
  | some v => xs.any (fun x => jsStrictEq x v)

/-- Operator clause loop of `_matchQuery`: each recognized operator either
fails the document (`return false`) or falls through to the next entry; an
unrecognized operator key hits the `default` branch and fails the document. -/
def matchOps (dv : Option Value) : List (String × Value) → Bool
  | [] => true
  | (op, cv) :: rest =>
    if op = "$gt" then jsGtB dv cv && matchOps dv rest
    else if op = "$lt" then jsLtB dv cv && matchOps dv rest
    else if op = "$gte" then jsGeB dv cv && matchOps dv rest
    else if op = "$lte" then jsLeB dv cv && matchOps dv rest
    else if op = "$eq" then jsStrictEqOpt dv cv && matchOps dv rest
    else if op = "$ne" then !jsStrictEqOpt dv cv && matchOps dv rest
    else if op = "$in" then
      (match cv with
        | .arr xs => includesOpt xs dv
        | _ => false) && matchOps dv rest
    else if op = "$nin" then
      (match cv with
        | .arr xs => !includesOpt xs dv
        | _ => false) && matchOps dv rest
    else false

/-- Entries of an array as `Object.entries` sees it: index keys in order. -/
def arrayEntries (xs : List Value) : List (String × Value) :=
  (List.range xs.length).zip xs |>.map (fun p => (toString p.1, p.2))

/-- One query field of `_matchQuery`: a value that is a non-null object —
which in JavaScript includes arrays — is an operator clause; any other value
compares by strict equality against the document field. -/
def clauseHolds (d : Doc) (k : String) (v : Value) : Bool :=
  match v with
  | .obj ops => matchOps (alookup k d) ops
  | .arr xs => matchOps (alookup k d) (arrayEntries xs)
  | lit => jsStrictEqOpt (alookup k d) lit

/-- The `_matchQuery` function: every query field must hold. -/
def matchQuery (d : Doc) : Doc → Bool
  | [] => true
  | (k, v) :: rest => clauseHolds d k v && matchQuery d rest

/-- Split of a character list at every dot, the semantics of the JavaScript
`split('.')` call used to take collection keys apart. -/
def splitDotChars : List Char → List (List Char)
  | [] => [[]]
  | c :: rest =>
    if c = '.' then [] :: splitDotChars rest
    else
      match splitDotChars rest with
      | h :: t => (c :: h) :: t
      | [] => [[c]]

/-- String form of `s.split('.')`. -/
def splitDot (s : String) : List String :=
  (splitDotChars s.toList).map (fun cs => String.mk cs)

/-- Either storage mode recognized by the constructor options. -/
inductive StorageMode : Type where
  | memory : StorageMode
  | disk : StorageMode
  deriving DecidableEq

/-- Map from a field value, under string coercion, to the positions holding
that value: one single-field index. -/
abbrev FieldIndex := List (String × List Nat)

/-- In-memory state of one store instance: the fields of the source class
that carry data (timer handles and timestamps are scheduling only and carry
no document state). -/
structure DB : Type where
  storageMode : StorageMode
  databases : List String
  collections : List (String × List Doc)
  indexes : List (String × List (String × FieldIndex))
  changedCollections : List String
  nextId : Nat

/-- Fresh store as the constructor builds it. -/
def emptyDB (mode : StorageMode) : DB :=
  { storageMode := mode, databases := [], collections := [], indexes := [],
    changedCollections := [], nextId := 0 }

/-- Rendering of the modelled id counter: stands for the hex timestamp plus
random suffix of `_generateUniqueId`; distinct draws give distinct strings. -/
def objectIdOf (n : Nat) : String := "oid" ++ toString n

/-- Draw a fresh id and advance the generator state. -/
def genId (s : DB) : String × DB :=
  (objectIdOf s.nextId, { s with nextId := s.nextId + 1 })

/-- Membership add on the dirty set; a JavaScript Set iterates in insertion
order and ignores re-adds. -/
def addChanged (k : String) (l : List String) : List String :=
  if k ∈ l then l else l ++ [k]

/-- Full collection key as the facade builds it. -/
def fullName (db coll : String) : String := db ++ "." ++ coll

/-- Effect of `store.db(dbName).collection(collectionName)`: mark the database
name and create the collection (empty) on first reference. -/
def ensureCollection (s : DB) (db coll : String) : DB :=
  let s₁ := { s with databases := if db ∈ s.databases then s.databases else s.databases ++ [db] }
  let key := fullName db coll
  match alookup key s₁.collections with
  | some _ => s₁
  | none => { s₁ with collections := aset key [] s₁.collections }

/-- Whether a role grant names the given resource string exactly
(`role.resource === x`); a role that is not an object has an `undefined`
resource, which equals no string. -/
def roleResourceIs (r : Value) (x : String) : Bool :=
  match r with
  | .obj fields =>
    match alookup "resource" fields with
    | some v => jsStrictEq v (.str x)
    | none => false
  | _ => false

/-- Whether a role grant lists the permission
(`role.permissions.includes(p)`); a missing or non-array permission list
grants nothing (in JavaScript the call would throw; the facade only ever
stores array-valued permission lists). -/
def rolePermInclude (r : Value) (p : String) : Bool :=
  match r with
  | .obj fields =>
    match alookup "permissions" fields with
    | some (.arr xs) => xs.any (fun x => jsStrictEq x (.str p))
    | _ => false
  | _ => false

/-- Database-name part of a resource, `resource.split('.')[0]`. -/
def resourceDbName (resource : String) : String := (splitDot resource).getD 0 ""

/-- The `hasPermission` enforcer: no or falsy user denies, a missing or falsy
`roles` field denies, an admin grant on the wildcard resource allows
everything, otherwise some grant must name the resource (exactly, by database
name, or by wildcard) and list the permission.  A `roles` value that is not
an array would make JavaScript throw on `.some`; it is modelled as a denial
and never arises from the facade. -/
def hasPermission (user : Option Value) (resource permission : String) : Bool :=
  match user with
  | none => false
  | some u =>
    if jsFalsy u then false
    else
      match u with
      | .obj fields =>
        match alookup "roles" fields with
        | none => false
        | some rv =>
          if jsFalsy rv then false
          else
            match rv with
            | .arr roles =>
              if roles.any (fun r => roleResourceIs r "*" && rolePermInclude r "admin") then true
              else
                roles.any (fun r =>
                  (roleResourceIs r resource || roleResourceIs r (resourceDbName resource)
                    || roleResourceIs r "*")
                  && rolePermInclude r permission)
            | _ => false
      | _ => false

/-- The `checkPermission` wrapper returns exactly `hasPermission`. -/
def checkPermission (user : Option Value) (resource permission : String) : Bool :=
  hasPermission user resource permission

/-- The `insertOne` facade operation.  The guard `!user || check(user)`
proceeds when the user argument is absent or falsy, or when the permission
check succeeds; the stored copy is `{...doc, _id: fresh}`. -/
def insertOne (s : DB) (db coll : String) (doc : Doc) (user : Option Value) :
    Option Doc × DB :=
  let s₁ := ensureCollection s db coll
  let key := fullName db coll
  if optFalsy user || checkPermission user key "write" then
    let (id, s₂) := genId s₁
    let newDoc := aset "_id" (.str id) (objOf doc)
    let docs := (alookup key s₂.collections).getD []
    (some newDoc,
      { s₂ with collections := aset key (docs ++ [newDoc]) s₂.collections,
                changedCollections := addChanged key s₂.changedCollections })
  else (none, s₁)

/-- Stored copies of a batch, ids drawn left to right. -/
def freshDocs (s : DB) : List Doc → List Doc × DB
  | [] => ([], s)
  | d :: rest =>
    let (id, s₁) := genId s
    let nd := aset "_id" (.str id) (objOf d)
    let (nds, s₂) := freshDocs s₁ rest
    (nd :: nds, s₂)

/-- The `insertMany` facade operation: one dirty-marking batch of inserts. -/
def insertMany (s : DB) (db coll : String) (docs : List Doc) (user : Option Value) :
    Option (List Doc) × DB :=
  let s₁ := ensureCollection s db coll
  let key := fullName db coll
  if optFalsy user || checkPermission user key "write" then
    let (nds, s₂) := freshDocs s₁ docs
    let old := (alookup key s₂.collections).getD []
    (some nds,
      { s₂ with collections := aset key (old ++ nds) s₂.collections,
                changedCollections := addChanged key s₂.changedCollections })
  else (none, s₁)

/-- Full-replacement branch of `updateOne`: copy the update minus `_id`,
delete every non-`_id` field of the document, then assign the copy. -/
def replaceWith (update : Doc) (d : Doc) : Doc :=
  objAssign (d.filter (fun e => e.1 = "_id")) (aerase "_id" (objOf update))

/-- In-place modification `updateOne` applies to the matched document: patch
through a truthy `$set`, full replacement otherwise; the original `_id` value
is written back afterwards (a document without `_id` would get the field set
to `undefined`, modelled as the field staying absent). -/
def applyUpdate (update : Doc) (d : Doc) : Doc :=
  let origId := alookup "_id" d
  let d₁ :=
    match alookup "$set" update with
    | some sv =>
      if jsFalsy sv then replaceWith update d
      else objAssign d (aerase "_id" (objOf (spreadEntries sv)))
    | none => replaceWith update d
  match origId with
  | some v => aset "_id" v d₁
  | none => d₁

/-- Match phase plus mutation of `updateOne`: scan for the first matching
document, apply the modification there, leave the rest in place. -/
def updateFirstMatch (filter : Doc) (upd : Doc → Doc) : List Doc → Option (List Doc)
  | [] => none
  | d :: rest =>
    if matchQuery d filter then some (upd d :: rest)
    else (updateFirstMatch filter upd rest).map (fun r => d :: r)

/-- Result object of `updateOne`, with the optional fields the source only
sets on some paths. -/
structure UpdateResult : Type where
  matchedCount : Nat
  modifiedCount : Nat
  acknowledged : Bool
  upsertedId : Option String := none
  upserted : Bool := false
  error : Option String := none
  deriving DecidableEq

/-- Document synthesized by the upsert path before the id is attached:
`{...filter}` overlaid with the `$set` fields when `$set` is truthy and with
the whole update otherwise, then `_id` deleted. -/
def upsertBase (filter update : Doc) : Doc :=
  let base :=
    match alookup "$set" update with
    | some sv =>
      if jsFalsy sv then objAssign (objOf filter) update
      else objAssign (objOf filter) (spreadEntries sv)
    | none => objAssign (objOf filter) update
  aerase "_id" base

/-- The `updateOne` facade operation.  Unlike every other operation, its guard
is `!user || !check(user)` → deny: an absent user is denied here.  On a match
the first matching document is modified; with `upsert: true` and no match a
document synthesized from filter and update is appended with a fresh id. -/
def updateOne (s : DB) (db coll : String) (filter update options : Doc)
    (user : Option Value) : UpdateResult × DB :=
  let s₁ := ensureCollection s db coll
  let key := fullName db coll
  if optFalsy user || !checkPermission user key "write" then
    ({ matchedCount := 0, modifiedCount := 0, acknowledged := false,
       error := some "Permission denied" }, s₁)
  else
    let upsert :=
      match alookup "upsert" options with
      | some (.bool true) => true
      | _ => false
    let docs := (alookup key s₁.collections).getD []
    match updateFirstMatch filter (applyUpdate update) docs with
    | some docs₁ =>
      ({ matchedCount := 1, modifiedCount := 1, acknowledged := true },
        { s₁ with collections := aset key docs₁ s₁.collections,
                  changedCollections := addChanged key s₁.changedCollections })
    | none =>
      if upsert then
        let (id, s₂) := genId s₁
        let newDoc := aset "_id" (.str id) (upsertBase filter update)
        ({ matchedCount := 0, modifiedCount := 1, upsertedId := some id,
           acknowledged := true, upserted := true },
          { s₂ with collections := aset key (docs ++ [newDoc]) s₂.collections,
                    changedCollections := addChanged key s₂.changedCollections })
      else
        ({ matchedCount := 0, modifiedCount := 0, acknowledged := true }, s₁)

/-- Deletion pass of `deleteOne`: the splice-and-step-back loop visits each
document present at call time exactly once, in order, removing every match
and counting the removals. -/
def deleteLoop (filter : Doc) : List Doc → List Doc × Nat
  | [] => ([], 0)
  | d :: rest =>
    let (r, n) := deleteLoop filter rest
    if matchQuery d filter then (r, n + 1) else (d :: r, n)

/-- The `deleteOne` facade operation (guard `!user || check(user)` as for the
inserts); the dirty flag is set inside the loop, so only when at least one
document was removed. -/
def deleteOne (s : DB) (db coll : String) (filter : Doc) (user : Option Value) :
    Nat × DB :=
  let s₁ := ensureCollection s db coll
  let key := fullName db coll
  if optFalsy user || checkPermission user key "write" then
    let docs := (alookup key s₁.collections).getD []
    let (kept, n) := deleteLoop filter docs
    (n, { s₁ with collections := aset key kept s₁.collections,
                  changedCollections :=
                    if n > 0 then addChanged key s₁.changedCollections
                    else s₁.changedCollections })
  else (0, s₁)

/-- Index consulted by `find`: present exactly when the query has one single
key, an index table exists for the collection, and that table has an entry
for the query key. -/
def findIndex (s : DB) (key : String) (query : Doc) : Option FieldIndex :=
  match query with
  | [(qk, _)] =>
    match alookup key s.indexes with
    | some tables => alookup qk tables
    | none => none
  | _ => none

/-- The `find` facade operation (guard `!user || check(user)`, read
permission).  With an eligible single-key query and an existing index, the
query value is coerced to a string key and the indexed positions are read
back from the collection array — an out-of-range position reads as
`undefined` (`none`), which is why the result elements are optional.  The
fallback is a full scan through the matcher. -/
def find (s : DB) (db coll : String) (query : Doc) (user : Option Value) :
    List (Option Doc) × DB :=
  let s₁ := ensureCollection s db coll
  let key := fullName db coll
  if optFalsy user || checkPermission user key "read" then
    let docs := (alookup key s₁.collections).getD []
    match query, findIndex s₁ key query with
    | [(_, qv)], some fidx =>
      (match alookup (toStr qv) fidx with
        | some positions => (positions.map (fun i => docs.get? i), s₁)
        | none => ([], s₁))
    | _, _ =>
      (docs.filterMap (fun d => if matchQuery d query then some (some d) else none), s₁)
  else ([], s₁)

/-- Full-scan index build of `createIndex`: walk the collection once and
append each position under the string coercion of its field value (a missing
field files the position under the key "undefined"). -/
def idxAdd (k : String) (i : Nat) : FieldIndex → FieldIndex
  | [] => [(k, [i])]
  | (k₁, is) :: rest =>
    if k₁ = k then (k₁, is ++ [i]) :: rest else (k₁, is) :: idxAdd k i rest

/-- String key a document contributes to an index on `field`. -/
def indexKeyOf (d : Doc) (field : String) : String :=
  match alookup field d with
  | some v => toStr v
  | none => "undefined"

/-- Value-to-positions table over a collection for one field. -/
def buildIndex (docs : List Doc) (field : String) : FieldIndex :=
  ((List.range docs.length).zip docs).foldl
    (fun idx p => idxAdd (indexKeyOf p.2 field) p.1 idx) []

/-- The `createIndex` facade operation: replaces any prior index for the
field with a fresh full-scan build (never maintained afterwards). -/
def createIndex (s : DB) (db coll : String) (field : String) (user : Option Value) :
    Bool × DB :=
  let s₁ := ensureCollection s db coll
  let key := fullName db coll
  if optFalsy user || checkPermission user key "write" then
    let docs := (alookup key s₁.collections).getD []
    let tables := (alookup key s₁.indexes).getD []
    (true, { s₁ with indexes := aset key (aset field (buildIndex docs field) tables) s₁.indexes })
  else (false, s₁)

/-- The default role grant `registerUser` assigns when no roles are given. -/
def defaultRoleGrant : Value :=
  .obj [("resource", .str "*"), ("permissions", .arr [.str "read"])]

/-- The `registerUser` operation: look for an existing user through the
facade with no user argument, fail on a duplicate, default empty roles to the
read-everything grant, and insert `{username, password: hash, roles}` into
`auth.users`.  Password hashing is the opaque external service; it enters as
the function argument `hash`. -/
def registerUser (hash : String → String) (s : DB) (username password : String)
    (roles : List Value) : Except String (Option Doc × DB) :=
  let fr := find s "auth" "users" [("username", .str username)] none
  if fr.1.length > 0 then .error ("User " ++ username ++ " already exists")
  else
    let roles₁ :=
      if roles.isEmpty then [defaultRoleGrant] else roles
    .ok (insertOne fr.2 "auth" "users"
      [("username", .str username), ("password", .str (hash password)),
       ("roles", .arr roles₁)] none)

/-- File key on disk: the database directory name and the collection file
base name (the file itself is `<base>.json` inside the directory). -/
abbrev FileKey := String × String

/-- Modelled filesystem under the storage path: parsed content per collection
file.  JSON serialization round-trips the values modelled here, so content is
held as the document list. -/
structure FS : Type where
  files : List (FileKey × List Doc)

/-- Filesystem with no collection files. -/
def emptyFS : FS := { files := [] }

/-- Read of one collection file. -/
def fsRead (fs : FS) (k : FileKey) : Option (List Doc) :=
  match fs.files.find? (fun e => e.1 = k) with
  | some e => some e.2
  | none => none

/-- Overwrite-on-write of one collection file. -/
def fsWrite (fs : FS) (k : FileKey) (data : List Doc) : FS :=
  { files :=
      if (fs.files.find? (fun e => e.1 = k)).isSome then
        fs.files.map (fun e => if e.1 = k then (k, data) else e)
      else fs.files ++ [(k, data)] }

/-- The `_persistCollection` step: in disk mode write the file (a raising
write is modelled by the failure oracle `fails` and leaves the filesystem
unchanged); in memory mode do nothing and never fail. -/
def persistCollection (mode : StorageMode) (fails : FileKey → Bool) (fs : FS)
    (db coll : String) (data : List Doc) : Option FS :=
  match mode with
  | .disk => if fails (db, coll) then none else some (fsWrite fs (db, coll) data)
  | .memory => some fs

/-- Loop body of `_dumpChangedCollections`: each dirty key is split at every
dot and only the first two parts name the file; a raising write aborts the
whole loop (the files already written keep their new content) and the dirty
set is cleared only after a complete pass. -/
def dumpLoop (mode : StorageMode) (fails : FileKey → Bool)
    (collections : List (String × List Doc)) : List String → FS → FS × Bool
  | [], fs => (fs, true)
  | name :: rest, fs =>
    let parts := splitDot name
    let db := parts.getD 0 ""
    let coll := parts.getD 1 ""
    let data := (alookup name collections).getD []
    match persistCollection mode fails fs db coll data with
    | some fs₁ => dumpLoop mode fails collections rest fs₁
    | none => (fs, false)

/-- The `_dumpChangedCollections` pass over the dirty set, in insertion
order.  The boolean reports whether the pass completed; `clear()` runs only
then. -/
def dumpChangedCollections (fails : FileKey → Bool) (s : DB) (fs : FS) :
    DB × FS × Bool :=
  match dumpLoop s.storageMode fails s.collections s.changedCollections fs with
  | (fs₁, true) => ({ s with changedCollections := [] }, fs₁, true)
  | (fs₁, false) => (s, fs₁, false)

/-- The `_loadPersistedData` walk: every directory is a database, every
`.json` file in it a collection, loaded into the in-memory map under the
joined key.  It runs in both storage modes — `initialize` does not gate it. -/
def loadPersistedData (s : DB) (fs : FS) : DB :=
  fs.files.foldl
    (fun acc e =>
      { acc with
          databases := if e.1.1 ∈ acc.databases then acc.databases else acc.databases ++ [e.1.1],
          collections := aset (e.1.1 ++ "." ++ e.1.2) e.2 acc.collections })
    s

/-- The `_ensureAdminUser` step: create `auth.users` when absent and seed the
admin account (wildcard resource, read/write/admin) when no user exists.  The
bcrypt hash of the default password enters as `adminHash`. -/
def ensureAdminUser (adminHash : String) (s : DB) : DB :=
  let key := "auth.users"
  let s₁ :=
    match alookup key s.collections with
    | some _ => s
    | none => { s with collections := aset key [] s.collections }
  if ((alookup key s₁.collections).getD []).isEmpty then
    let (id, s₂) := genId s₁
    let adminDoc : Doc :=
      [("_id", .str id), ("username", .str "admin"), ("password", .str adminHash),
       ("roles", .arr [.obj [("resource", .str "*"),
         ("permissions", .arr [.str "read", .str "write", .str "admin"])]])]
    { s₂ with collections := aset key (((alookup key s₂.collections).getD []) ++ [adminDoc]) s₂.collections,
              changedCollections := addChanged key s₂.changedCollections }
  else s₁

/-- The `initialize` entry point.  `_ensureStorageDirectory` only creates the
root directory (no collection file is read or written there), then
`_loadPersistedData` runs unconditionally — in memory mode as well as disk
mode — then the idle dump timer is started only in disk mode (scheduling
only, no immediate write), then the admin user is seeded.  No collection
file is ever written during this sequence, so the filesystem is returned
unchanged by construction. -/
def initializeDB (adminHash : String) (s : DB) (fs : FS) : DB :=
  ensureAdminUser adminHash (loadPersistedData s fs)

/-- Admin-style principal: one wildcard grant carrying the admin permission,
the shape under which `hasPermission` allows everything. -/
def adminUserVal : Value :=
  .obj [("roles", .arr [.obj [("resource", .str "*"), ("permissions", .arr [.str "admin"])]])]

/-- Operator keys the matcher recognizes. -/
def recognizedOp (op : String) : Bool :=
  op = "$gt" || op = "$lt" || op = "$gte" || op = "$lte" ||
  op = "$eq" || op = "$ne" || op = "$in" || op = "$nin"

/-- File key a dirty-set entry is dumped under: the first two dot-separated
parts of the full collection name (further parts are silently dropped by the
destructuring in the source). -/
def dumpKey (name : String) : FileKey :=
  ((splitDot name).getD 0 "", (splitDot name).getD 1 "")

/-- Filesystem after successfully writing a list of dirty entries in order. -/
def writeAll (collections : List (String × List Doc)) (fs : FS) : List String → FS
  | [] => fs
  | name :: rest =>
    writeAll collections (fsWrite fs (dumpKey name) ((alookup name collections).getD [])) rest

/-- Identifier values supplied by the caller inside the filter, the update, or
the update `$set` payload of an upsert. -/
def suppliedIds (filter update : Doc) : List Value :=
  (alookup "_id" filter).toList ++ (alookup "_id" update).toList ++
    (match alookup "$set" update with
      | some sv => (alookup "_id" (objOf (spreadEntries sv))).toList
      | none => [])

/-- Permission-denied sentinel `updateOne` returns. -/
def deniedUpdateResult : UpdateResult :=
  { matchedCount := 0, modifiedCount := 0, acknowledged := false,
    error := some "Permission denied" }

/-- Store used by the index staleness scenario after inserting the Alpha
document (absent user: the insert guard proceeds). -/
def alphaStore : DB :=
  (insertOne (emptyDB .memory) "test" "one" [("name", .str "Alpha")] none).2

/-- The same store after also inserting the Beta document. -/
def alphaBetaStore : DB :=
  (insertOne alphaStore "test" "one" [("name", .str "Beta")] none).2

/-- The same store after `createIndex` on the name field. -/
def indexedStore : DB :=
  (createIndex alphaBetaStore "test" "one" "name" none).2

/-- Stored Alpha document with its assigned id. -/
def alphaStoredDoc : Doc := [("name", .str "Alpha"), ("_id", .str (objectIdOf 0))]

/-- Stored Beta document with its assigned id. -/
def betaStoredDoc : Doc := [("name", .str "Beta"), ("_id", .str (objectIdOf 1))]

/-- The indexed store after deleting the Beta document; the name index is not
rebuilt. -/
def indexedStoreNoBeta : DB :=
  (deleteOne indexedStore "test" "one" [("name", .str "Beta")] none).2

/-- Store holding one document whose field f is the string "1,2", with an
index on f — the string coercion of the array query value below. -/
def coercedStore : DB :=
  (createIndex ((insertOne (emptyDB .memory) "db" "c" [("f", .str "1,2")] none).2)
    "db" "c" "f" none).2

/-- Malformed query whose clause value is an array: its entries enumerate as
operator keys "0" and "1", neither recognized. -/
def malformedQuery : Doc := [("f", .arr [.num 1, .num 2])]

/-- Store with three dirty collections for the dump-failure scenario. -/
def threeDirtyStore : DB :=
  { emptyDB .disk with
      collections :=
        [("d.x", [[("a", .num 1)]]), ("d.y", [[("b", .num 2)]]), ("d.z", [[("c", .num 3)]])],
      changedCollections := ["d.x", "d.y", "d.z"] }

/-- Failure oracle that fails exactly the write of collection file y. -/
def failOnY : FileKey → Bool := fun k => k.2 = "y"

/-- Failure oracle that never fails. -/
def noFail : FileKey → Bool := fun _ => false

/-- Filesystem holding one persisted collection file, for the memory-mode
load scenario. -/
def oneFileFS : FS := { files := [(("mydb", "stuff"), [[("k", .num 7)]])] }

/-- Fresh disk-mode store holding exactly one collection, marked dirty: the
starting point of the round-trip scenario. -/
def singleCollectionStore (key : String) (docs : List Doc) : DB :=
  { emptyDB .disk with collections := [(key, docs)], changedCollections := [key] }

/-- Store whose only collection has a dotted collection name, for the
round-trip scenario. -/
def dottedNameStore : DB :=
  { emptyDB .disk with
      collections := [("a.b.c", [[("x", .num 1), ("_id", .str "i")]])],
      changedCollections := ["a.b.c"] }

theorem alookup_cons {α : Type} (k : String) (e : String × α) (rest : List (String × α)) :
    alookup k (e :: rest) = if e.1 = k then some e.2 else alookup k rest := rfl

theorem keysOf_cons {α : Type} (e : String × α) (rest : List (String × α)) :
    keysOf (e :: rest) = e.1 :: keysOf rest := rfl

theorem keysOf_append {α : Type} (l₁ l₂ : List (String × α)) :
    keysOf (l₁ ++ l₂) = keysOf l₁ ++ keysOf l₂ := by
  simp [keysOf]

theorem aset_cons {α : Type} (k : String) (v : α) (e : String × α) (rest : List (String × α)) :
    aset k v (e :: rest) = if e.1 = k then (k, v) :: rest else e :: aset k v rest := rfl

theorem hasPermission_admin (resource permission : String) :
    hasPermission (some adminUserVal) resource permission = true := by
  simp [hasPermission, adminUserVal, jsFalsy, alookup, roleResourceIs, rolePermInclude,
    jsStrictEq]

theorem alookup_aset_self {α : Type} (k : String) (v : α) (l : List (String × α)) :
    alookup k (aset k v l) = some v := by
  induction l with
  | nil => simp [aset, alookup]
  | cons e rest ih =>
    by_cases h : e.1 = k
    · simp [aset, h, alookup]
    · simp [aset, h, alookup, ih]

theorem alookup_aset_ne {α : Type} {k k₁ : String} (v : α) (l : List (String × α))
    (h : k₁ ≠ k) : alookup k₁ (aset k v l) = alookup k₁ l := by
  have hne : ¬ (k = k₁) := fun h₁ => h h₁.symm
  induction l with
  | nil => simp [aset, alookup, hne]
  | cons e rest ih =>
    by_cases he : e.1 = k
    · subst he
      simp [aset, alookup, hne]
    · simp [aset, he, alookup, ih]

theorem alookup_eq_none_iff {α : Type} (k : String) (l : List (String × α)) :
    alookup k l = none ↔ k ∉ keysOf l := by
  induction l with
  | nil => simp [alookup, keysOf]
  | cons e rest ih =>
    by_cases h : e.1 = k
    · simp [alookup, h, keysOf]
    · have hk : ¬ k = e.1 := fun h₁ => h h₁.symm
      simp [alookup, h, keysOf, ih, hk]

theorem aset_eq_append {α : Type} {k : String} (v : α) {l : List (String × α)}
    (h : alookup k l = none) : aset k v l = l ++ [(k, v)] := by
  induction l with
  | nil => simp [aset]
  | cons e rest ih =>
    by_cases he : e.1 = k
    · simp [alookup, he] at h
    · simp [alookup, he] at h
      simp [aset, he, ih h]

theorem alookup_aerase_self {α : Type} (k : String) (l : List (String × α)) :
    alookup k (aerase k l) = none := by
  induction l with
  | nil => simp [aerase, alookup]
  | cons e rest ih =>
    by_cases he : e.1 = k
    · simpa [aerase, he] using ih
    · simpa [aerase, he, alookup] using ih

theorem aerase_cons {α : Type} (k : String) (e : String × α) (rest : List (String × α)) :
    aerase k (e :: rest) = if e.1 = k then aerase k rest else e :: aerase k rest := by
  by_cases he : e.1 = k <;> simp [aerase, he]

theorem alookup_aerase_ne {α : Type} {k k₁ : String} (l : List (String × α))
    (h : k₁ ≠ k) : alookup k₁ (aerase k l) = alookup k₁ l := by
  induction l with
  | nil => simp [aerase]
  | cons e rest ih =>
    by_cases he : e.1 = k
    · have h₁ : ¬ e.1 = k₁ := fun h₂ => h (h₂ ▸ he)
      rw [aerase_cons, if_pos he, ih, alookup_cons, if_neg h₁]
    · rw [aerase_cons, if_neg he, alookup_cons, alookup_cons, ih]

theorem keysOf_aset {α : Type} (k : String) (v : α) (l : List (String × α)) :
    keysOf (aset k v l) = if k ∈ keysOf l then keysOf l else keysOf l ++ [k] := by
  induction l with
  | nil => simp [aset, keysOf]
  | cons e rest ih =>
    by_cases he : e.1 = k
    · subst he
      simp [aset, keysOf]
    · have hke : ¬ k = e.1 := fun h => he h.symm
      simp only [aset_cons, if_neg he, keysOf_cons, ih, List.mem_cons, hke, false_or]
      by_cases hm : k ∈ keysOf rest
      · simp [hm]
      · simp [hm]

theorem keysOf_aset_nodup {α : Type} (k : String) (v : α) {l : List (String × α)}
    (h : (keysOf l).Nodup) : (keysOf (aset k v l)).Nodup := by
  rw [keysOf_aset]
  by_cases hm : k ∈ keysOf l
  · simpa [hm]
  · simp only [hm, if_false]
    exact List.Nodup.append h (List.nodup_singleton k)
      (fun a ha hb => hm ((List.mem_singleton.mp hb) ▸ ha))

theorem keysOf_objAssign_nodup (t : Doc) (src : List (String × Value))
    (h : (keysOf t).Nodup) : (keysOf (objAssign t src)).Nodup := by
  induction src generalizing t with
  | nil => simpa [objAssign]
  | cons e rest ih =>
    have : objAssign t (e :: rest) = objAssign (aset e.1 e.2 t) rest := by
      simp [objAssign]
    rw [this]
    exact ih _ (keysOf_aset_nodup e.1 e.2 h)

theorem keysOf_objOf_nodup (entries : List (String × Value)) :
    (keysOf (objOf entries)).Nodup := by
  simpa [objOf] using keysOf_objAssign_nodup [] entries (by simp [keysOf])

theorem keysOf_aerase_sublist {α : Type} (k : String) (l : List (String × α)) :
    (keysOf (aerase k l)).Sublist (keysOf l) := by
  induction l with
  | nil => simp [aerase, keysOf]
  | cons e rest ih =>
    by_cases he : e.1 = k
    · rw [aerase_cons, if_pos he]
      exact ih.cons e.1
    · rw [aerase_cons, if_neg he, keysOf_cons, keysOf_cons]
      exact ih.cons₂ e.1

theorem keysOf_aerase_nodup {α : Type} (k : String) {l : List (String × α)}
    (h : (keysOf l).Nodup) : (keysOf (aerase k l)).Nodup :=
  (keysOf_aerase_sublist k l).nodup h

theorem notmem_keysOf_aerase {α : Type} (k : String) (l : List (String × α)) :
    k ∉ keysOf (aerase k l) :=
  (alookup_eq_none_iff k (aerase k l)).mp (alookup_aerase_self k l)

theorem objAssign_disjoint (t : Doc) (src : List (String × Value))
    (hd : ∀ k ∈ keysOf src, k ∉ keysOf t) (hn : (keysOf src).Nodup) :
    objAssign t src = t ++ src := by
  induction src generalizing t with
  | nil => simp [objAssign]
  | cons e rest ih =>
    have hcons : e.1 ∉ keysOf rest ∧ (keysOf rest).Nodup :=
      List.nodup_cons.mp (keysOf_cons e rest ▸ hn)
    have h₁ : objAssign t (e :: rest) = objAssign (aset e.1 e.2 t) rest := rfl
    have h₂ : alookup e.1 t = none :=
      (alookup_eq_none_iff e.1 t).mpr (hd e.1 (by rw [keysOf_cons]; exact List.mem_cons_self _ _))
    have h₃ : aset e.1 e.2 t = t ++ [(e.1, e.2)] := aset_eq_append e.2 h₂
    have hd₁ : ∀ k ∈ keysOf rest, k ∉ keysOf (t ++ [(e.1, e.2)]) := by
      intro k hk
      have hkt : k ∉ keysOf t :=
        hd k (by rw [keysOf_cons]; exact List.mem_cons_of_mem _ hk)
      have hke : ¬ k = e.1 := fun h => hcons.1 (h ▸ hk)
      rw [keysOf_append]
      intro hmem
      rcases List.mem_append.mp hmem with hm | hm
      · exact hkt hm
      · exact hke (List.mem_singleton.mp hm)
    rw [h₁, h₃, ih _ hd₁ hcons.2]
    simp

theorem alookup_objAssign_none {k : String} (t : Doc) {src : List (String × Value)}
    (h : alookup k src = none) : alookup k (objAssign t src) = alookup k t := by
  induction src generalizing t with
  | nil => simp [objAssign]
  | cons e rest ih =>
    rw [alookup_cons] at h
    by_cases he : e.1 = k
    · simp [he] at h
    · rw [if_neg he] at h
      have h₁ : objAssign t (e :: rest) = objAssign (aset e.1 e.2 t) rest := rfl
      rw [h₁, ih _ h, alookup_aset_ne _ _ (fun h₂ => he h₂.symm)]

theorem matchOps_tail_false (dv : Option Value) (op₁ : String) (cv₁ : Value)
    {rest : List (String × Value)} (h : matchOps dv rest = false) :
    matchOps dv ((op₁, cv₁) :: rest) = false := by
  by_cases h₁ : op₁ = "$gt" <;> by_cases h₂ : op₁ = "$lt" <;>
    by_cases h₃ : op₁ = "$gte" <;> by_cases h₄ : op₁ = "$lte" <;>
    by_cases h₅ : op₁ = "$eq" <;> by_cases h₆ : op₁ = "$ne" <;>
    by_cases h₇ : op₁ = "$in" <;> by_cases h₈ : op₁ = "$nin" <;>
    simp_all [matchOps]

theorem matchOps_unknown {op : String} {cv : Value} {ops : List (String × Value)}
    (dv : Option Value) (hmem : (op, cv) ∈ ops) (hop : recognizedOp op = false) :
    matchOps dv ops = false := by
  induction ops with
  | nil => simp at hmem
  | cons e rest ih =>
    rcases List.mem_cons.mp hmem with he | he
    · rw [← he]
      simp only [recognizedOp, Bool.or_eq_false_iff, decide_eq_false_iff_not] at hop
      obtain ⟨⟨⟨⟨⟨⟨⟨h₁, h₂⟩, h₃⟩, h₄⟩, h₅⟩, h₆⟩, h₇⟩, h₈⟩ := hop
      simp [matchOps, h₁, h₂, h₃, h₄, h₅, h₆, h₇, h₈]
    · cases e with
      | mk op₁ cv₁ => exact matchOps_tail_false dv op₁ cv₁ (ih he)

theorem matchOps_in_nonarr {cv : Value} {ops : List (String × Value)}
    (dv : Option Value) (hmem : ("$in", cv) ∈ ops) (harr : ∀ xs, cv ≠ .arr xs) :
    matchOps dv ops = false := by
  induction ops with
  | nil => simp at hmem
  | cons e rest ih =>
    rcases List.mem_cons.mp hmem with he | he
    · rw [← he]
      cases cv <;> simp [matchOps] <;> first
        | rfl
        | exact absurd rfl (harr _)
    · cases e with
      | mk op₁ cv₁ => exact matchOps_tail_false dv op₁ cv₁ (ih he)

theorem matchOps_nin_nonarr {cv : Value} {ops : List (String × Value)}
    (dv : Option Value) (hmem : ("$nin", cv) ∈ ops) (harr : ∀ xs, cv ≠ .arr xs) :
    matchOps dv ops = false := by
  induction ops with
  | nil => simp at hmem
  | cons e rest ih =>
    rcases List.mem_cons.mp hmem with he | he
    · rw [← he]
      cases cv <;> simp [matchOps] <;> first
        | rfl
        | exact absurd rfl (harr _)
    · cases e with
      | mk op₁ cv₁ => exact matchOps_tail_false dv op₁ cv₁ (ih he)

theorem matchQuery_append (d : Doc) (q₁ q₂ : Doc) :
    matchQuery d (q₁ ++ q₂) = (matchQuery d q₁ && matchQuery d q₂) := by
  induction q₁ with
  | nil => simp [matchQuery]
  | cons e rest ih =>
    cases e with
    | mk k v => simp [matchQuery, ih, Bool.and_assoc]

theorem matchQuery_clause_false {d : Doc} {k : String} {v : Value}
    (q₁ q₂ : Doc) (h : clauseHolds d k v = false) :
    matchQuery d (q₁ ++ (k, v) :: q₂) = false := by
  rw [matchQuery_append, matchQuery, h]
  simp

theorem updateFirstMatch_none {filter : Doc} (f : Doc → Doc) {l : List Doc}
    (h : ∀ x ∈ l, matchQuery x filter = false) :
    updateFirstMatch filter f l = none := by
  induction l with
  | nil => rfl
  | cons d rest ih =>
    rw [updateFirstMatch, h d (List.mem_cons_self d rest)]
    simp [ih (fun x hx => h x (List.mem_cons_of_mem d hx))]

theorem updateFirstMatch_split {filter : Doc} (f : Doc → Doc) {pre : List Doc}
    (d : Doc) (post : List Doc)
    (hpre : ∀ x ∈ pre, matchQuery x filter = false)
    (hd : matchQuery d filter = true) :
    updateFirstMatch filter f (pre ++ d :: post) = some (pre ++ f d :: post) := by
  induction pre with
  | nil => simp [updateFirstMatch, hd]
  | cons x rest ih =>
    rw [List.cons_append, updateFirstMatch, hpre x (List.mem_cons_self x rest)]
    simp [ih (fun y hy => hpre y (List.mem_cons_of_mem x hy))]

theorem deleteLoop_eq (filter : Doc) (l : List Doc) :
    deleteLoop filter l =
      (l.filter (fun d => !matchQuery d filter), l.countP (fun d => matchQuery d filter)) := by
  induction l with
  | nil => simp [deleteLoop, List.filter_nil, List.countP_nil]
  | cons d rest ih =>
    rw [deleteLoop, ih]
    by_cases h : matchQuery d filter
    · simp [h, List.countP_cons, List.filter_cons]
    · simp [h, List.countP_cons, List.filter_cons]

theorem dumpLoop_memory (fails : FileKey → Bool) (cols : List (String × List Doc))
    (names : List String) (fs : FS) :
    dumpLoop .memory fails cols names fs = (fs, true) := by
  induction names generalizing fs with
  | nil => rfl
  | cons name rest ih => rw [dumpLoop]; exact ih fs

theorem dumpLoop_abort {fails : FileKey → Bool} (cols : List (String × List Doc))
    {pre : List String} (name : String) (post : List String) (fs : FS)
    (hpre : ∀ m ∈ pre, fails (dumpKey m) = false)
    (hfail : fails (dumpKey name) = true) :
    dumpLoop .disk fails cols (pre ++ name :: post) fs = (writeAll cols fs pre, false) := by
  induction pre generalizing fs with
  | nil =>
    rw [List.nil_append, dumpLoop]
    simp only [persistCollection]
    rw [show ((splitDot name).getD 0 "", (splitDot name).getD 1 "") = dumpKey name from rfl,
      hfail]
    simp [writeAll]
  | cons m rest ih =>
    have hm : fails (dumpKey m) = false := hpre m (List.mem_cons_self m rest)
    rw [List.cons_append, dumpLoop]
    simp only [persistCollection]
    rw [show ((splitDot m).getD 0 "", (splitDot m).getD 1 "") = dumpKey m from rfl, hm]
    simp only [Bool.false_eq_true, if_false]
    rw [show writeAll cols fs (m :: rest) =
      writeAll cols (fsWrite fs (dumpKey m) ((alookup m cols).getD [])) rest from rfl]
    exact ih _ (fun x hx => hpre x (List.mem_cons_of_mem m hx))

theorem splitDotChars_nodot {l : List Char} (h : ∀ c ∈ l, c ≠ '.') :
    splitDotChars l = [l] := by
  induction l with
  | nil => rfl
  | cons c rest ih =>
    rw [splitDotChars]
    have hc : ¬ c = '.' := h c (List.mem_cons_self c rest)
    rw [if_neg hc, ih (fun x hx => h x (List.mem_cons_of_mem c hx))]

theorem splitDotChars_append {l₁ : List Char} (l₂ : List Char)
    (h : ∀ c ∈ l₁, c ≠ '.') :
    splitDotChars (l₁ ++ '.' :: l₂) = l₁ :: splitDotChars l₂ := by
  induction l₁ with
  | nil => simp [splitDotChars]
  | cons c rest ih =>
    have hc : ¬ c = '.' := h c (List.mem_cons_self c rest)
    rw [List.cons_append, splitDotChars, if_neg hc,
      ih (fun x hx => h x (List.mem_cons_of_mem c hx))]

theorem toList_fullName (db coll : String) :
    (fullName db coll).toList = db.toList ++ '.' :: coll.toList := by
  simp [fullName, String.toList, String.data_append]

theorem splitDot_fullName {db coll : String} (hdb : ∀ c ∈ db.toList, c ≠ '.')
    (hcoll : ∀ c ∈ coll.toList, c ≠ '.') :
    splitDot (fullName db coll) = [db, coll] := by
  rw [splitDot, toList_fullName, splitDotChars_append _ hdb, splitDotChars_nodot hcoll]
  simp [show ∀ s : String, String.mk s.toList = s from fun _ => rfl]

theorem find?_write_map {k k₁ : FileKey} (data : List Doc) (h : ¬ k = k₁) :
    ∀ files : List (FileKey × List Doc),
      (files.map (fun e => if e.1 = k₁ then (k₁, data) else e)).find? (fun e => e.1 = k)
        = files.find? (fun e => e.1 = k)
  | [] => rfl
  | e :: rest => by
    by_cases he : e.1 = k₁
    · rw [List.map_cons, if_pos he]
      have h₁ : ¬ (((k₁, data) : FileKey × List Doc).1 = k) := fun hh => h hh.symm
      have h₂ : ¬ (e.1 = k) := by
        rw [he]
        exact fun hh => h hh.symm
      rw [List.find?_cons_of_neg _ (by simpa using h₁), List.find?_cons_of_neg _ (by simpa using h₂),
        find?_write_map data h rest]
    · rw [List.map_cons, if_neg he]
      by_cases hk : e.1 = k
      · rw [List.find?_cons_of_pos _ (by simpa using hk), List.find?_cons_of_pos _ (by simpa using hk)]
      · rw [List.find?_cons_of_neg _ (by simpa using hk), List.find?_cons_of_neg _ (by simpa using hk),
          find?_write_map data h rest]

theorem fsRead_fsWrite_ne (fs : FS) {k k₁ : FileKey} (data : List Doc) (h : ¬ k = k₁) :
    fsRead (fsWrite fs k₁ data) k = fsRead fs k := by
  rw [fsRead, fsWrite]
  by_cases hs : (fs.files.find? (fun e => e.1 = k₁)).isSome
  · simp only [hs, if_true]
    rw [find?_write_map data h fs.files]
    rfl
  · have hs₁ : (fs.files.find? (fun e => e.1 = k₁)).isSome = false := by
      rwa [Bool.not_eq_true] at hs
    rw [hs₁, if_neg (by simp : ¬ (false = true))]
    have h₁ : List.find? (fun e => e.1 = k) [(k₁, data)] = none := by
      have hk : (decide (k₁ = k)) = false := decide_eq_false (fun hh => h hh.symm)
      simp [List.find?, hk]
    rw [List.find?_append, h₁, fsRead]
    cases fs.files.find? (fun e => e.1 = k) <;> rfl

theorem fsRead_writeAll_notmem (cols : List (String × List Doc)) {k : FileKey}
    {names : List String} (fs : FS) (h : k ∉ names.map dumpKey) :
    fsRead (writeAll cols fs names) k = fsRead fs k := by
  induction names generalizing fs with
  | nil => rfl
  | cons m rest ih =>
    rw [List.map_cons] at h
    have h₁ : ¬ k = dumpKey m := fun hh => h (hh ▸ List.mem_cons_self _ _)
    have h₂ : k ∉ rest.map dumpKey := fun hh => h (List.mem_cons_of_mem _ hh)
    rw [writeAll, ih _ h₂, fsRead_fsWrite_ne _ _ h₁]

theorem ensureCollection_nextId (s : DB) (db coll : String) :
    (ensureCollection s db coll).nextId = s.nextId := by
  rw [ensureCollection]
  cases alookup (fullName db coll)
      { s with databases := if db ∈ s.databases then s.databases else s.databases ++ [db] }.collections
    <;> rfl

theorem ensureCollection_indexes (s : DB) (db coll : String) :
    (ensureCollection s db coll).indexes = s.indexes := by
  rw [ensureCollection]
  cases alookup (fullName db coll)
      { s with databases := if db ∈ s.databases then s.databases else s.databases ++ [db] }.collections
    <;> rfl

theorem ensureCollection_storageMode (s : DB) (db coll : String) :
    (ensureCollection s db coll).storageMode = s.storageMode := by
  rw [ensureCollection]
  cases alookup (fullName db coll)
      { s with databases := if db ∈ s.databases then s.databases else s.databases ++ [db] }.collections
    <;> rfl

theorem ensureCollection_changed (s : DB) (db coll : String) :
    (ensureCollection s db coll).changedCollections = s.changedCollections := by
  rw [ensureCollection]
  cases alookup (fullName db coll)
      { s with databases := if db ∈ s.databases then s.databases else s.databases ++ [db] }.collections
    <;> rfl

/-- C9: after inserting the Alpha and Beta documents and creating an index on
the name field, the indexed find for Alpha returns exactly the stored Alpha
document through the index path (the single-key index eligibility holds);
after deleting Beta, repeating the indexed find for Beta evaluates without
error to the single stale read `none` — the JavaScript `undefined` read from
the out-of-range position the never-rebuilt index still holds. -/
theorem C9_stale_index_read_safe :
    (findIndex indexedStore (fullName "test" "one") [("name", .str "Alpha")]).isSome = true ∧
    (find indexedStore "test" "one" [("name", .str "Alpha")] none).1 = [some alphaStoredDoc] ∧
    (deleteOne indexedStore "test" "one" [("name", .str "Beta")] none).1 = 1 ∧
    (find indexedStoreNoBeta "test" "one" [("name", .str "Beta")] none).1 = [none] :=
  ⟨rfl, rfl, rfl, rfl⟩

/-- C1 counterexample: with dirty collections d.x, d.y, d.z in order and a
write failure on the file of d.y, the cycle writes d.x, aborts before d.z
(whose file is never created), and clears nothing — the successfully written
d.x stays dirty — contrary to the claim that the remaining dumps proceed and
that written entries are cleared. -/
theorem C1_counterexample :
    (dumpChangedCollections failOnY threeDirtyStore emptyFS).2.2 = false ∧
    (dumpChangedCollections failOnY threeDirtyStore emptyFS).1.changedCollections
      = ["d.x", "d.y", "d.z"] ∧
    fsRead (dumpChangedCollections failOnY threeDirtyStore emptyFS).2.1 ("d", "x")
      = some [[("a", .num 1)]] ∧
    fsRead (dumpChangedCollections failOnY threeDirtyStore emptyFS).2.1 ("d", "z") = none :=
  ⟨rfl, rfl, rfl, rfl⟩

/-- C2 counterexample: a store initialized in memory mode over a storage path
holding one persisted collection file does load it — the collection map of
the fresh store is empty before and holds the file content after — contrary
to the claim that memory mode never reads collection files. -/
theorem C2_counterexample :
    alookup "mydb.stuff" (emptyDB .memory).collections = none ∧
    alookup "mydb.stuff" (initializeDB "h" (emptyDB .memory) oneFileFS).collections
      = some [[("k", .num 7)]] :=
  ⟨rfl, rfl⟩

/-- C3 counterexample: `updateOne` called without a user argument on a store
whose collection holds a matching document returns the permission-denied
sentinel and leaves the store untouched, while the same call by a user whose
check succeeds matches and modifies the document — contrary to the claim
that every operation treats an absent user as no check requested. -/
theorem C3_counterexample :
    (updateOne alphaStore "test" "one" [("name", .str "Alpha")]
        [("$set", .obj [("x", .num 1)])] [] none)
      = (deniedUpdateResult, alphaStore) ∧
    (updateOne alphaStore "test" "one" [("name", .str "Alpha")]
        [("$set", .obj [("x", .num 1)])] [] (some adminUserVal)).1.matchedCount = 1 :=
  ⟨rfl, rfl⟩

/-- C7 counterexample: the query whose clause value is the array [1, 2] is
malformed — its operator keys enumerate as "0" and "1", so the matcher
rejects every document — yet with an index on f and a stored document whose
f is the string "1,2" (the string coercion of that array), the indexed find
returns that document, not the empty result the claim promises for malformed
queries. -/
theorem C7_counterexample :
    matchQuery [("f", .str "1,2"), ("_id", .str (objectIdOf 0))] malformedQuery = false ∧
    (find coercedStore "db" "c" malformedQuery none).1
      = [some [("f", .str "1,2"), ("_id", .str (objectIdOf 0))]] :=
  ⟨rfl, rfl⟩

/-- C8 counterexample: a collection named b.c inside database a dumps under
the truncated file key (a, b), so a fresh load re-creates its documents under
the key a.b and nothing under a.b.c — the round trip loses the collection,
contrary to the claim that it holds for every collection. -/
theorem C8_counterexample :
    alookup "a.b.c" dottedNameStore.collections
      = some [[("x", .num 1), ("_id", .str "i")]] ∧
    (dumpChangedCollections noFail dottedNameStore emptyFS).2.2 = true ∧
    alookup "a.b.c"
      (loadPersistedData (emptyDB .disk)
        (dumpChangedCollections noFail dottedNameStore emptyFS).2.1).collections = none ∧
    alookup "a.b"
      (loadPersistedData (emptyDB .disk)
        (dumpChangedCollections noFail dottedNameStore emptyFS).2.1).collections
      = some [[("x", .num 1), ("_id", .str "i")]] :=
  ⟨rfl, rfl, rfl, rfl⟩

/-- C1 (amended): if serializing one dirty collection fails, the dump cycle
aborts at that collection: only the dirty entries before it in insertion
order are written, every file key not among theirs — in particular every
entry after the failed one — keeps its prior content, and the dirty set,
including the entries already successfully written, is left unchanged for
the next scheduled cycle. -/
theorem C1_dump_failure_aborts_cycle (s : DB) (fs : FS) (fails : FileKey → Bool)
    (pre post : List String) (name : String)
    (hmode : s.storageMode = .disk)
    (hsplit : s.changedCollections = pre ++ name :: post)
    (hpre : ∀ m ∈ pre, fails (dumpKey m) = false)
    (hfail : fails (dumpKey name) = true) :
    dumpChangedCollections fails s fs = (s, writeAll s.collections fs pre, false) ∧
    (∀ k : FileKey, k ∉ pre.map dumpKey →
      fsRead (writeAll s.collections fs pre) k = fsRead fs k) := by
  constructor
  · rw [dumpChangedCollections, hmode, hsplit,
      dumpLoop_abort s.collections name post fs hpre hfail]
  · exact fun k hk => fsRead_writeAll_notmem s.collections fs hk

/-- C1 witness: the amended theorem applied to the three-collection store
whose middle write fails. -/
theorem C1_dump_failure_aborts_cycle_witness :
    threeDirtyStore.storageMode = .disk ∧
    threeDirtyStore.changedCollections = ["d.x"] ++ "d.y" :: ["d.z"] ∧
    (∀ m ∈ ["d.x"], failOnY (dumpKey m) = false) ∧
    failOnY (dumpKey "d.y") = true ∧
    (dumpChangedCollections failOnY threeDirtyStore emptyFS
        = (threeDirtyStore, writeAll threeDirtyStore.collections emptyFS ["d.x"], false) ∧
      (∀ k : FileKey, k ∉ (["d.x"].map dumpKey) →
        fsRead (writeAll threeDirtyStore.collections emptyFS ["d.x"]) k = fsRead emptyFS k)) :=
  ⟨rfl, rfl, by decide, rfl,
    C1_dump_failure_aborts_cycle threeDirtyStore emptyFS failOnY ["d.x"] ["d.z"] "d.y"
      rfl rfl (by decide) rfl⟩

theorem ensureAdminUser_other (h : String) (s : DB) {k : String} (hk : k ≠ "auth.users") :
    alookup k (ensureAdminUser h s).collections = alookup k s.collections := by
  simp only [ensureAdminUser, genId]
  split
  · split
    · exact alookup_aset_ne _ _ hk
    · rw [alookup_aset_ne _ _ hk, alookup_aset_ne _ _ hk]
  · split
    · rfl
    · exact alookup_aset_ne _ _ hk

/-- C2 (amended): with storageMode memory no collection file is ever written
— a persist step is a no-op on the filesystem and a full dump cycle returns
the filesystem unchanged (while still clearing the dirty set) — but loading
is not disabled: initialize on a fresh memory-mode store still reads every
persisted collection file from the storage path into the in-memory map. -/
theorem C2_memory_mode_dump_disabled_load_not (fails : FileKey → Bool) :
    (∀ (fs : FS) (db coll : String) (data : List Doc),
      persistCollection .memory fails fs db coll data = some fs) ∧
    (∀ (s : DB) (fs : FS), s.storageMode = .memory →
      dumpChangedCollections fails s fs = ({ s with changedCollections := [] }, fs, true)) ∧
    (∀ (h db coll : String) (docs : List Doc), fullName db coll ≠ "auth.users" →
      alookup (fullName db coll)
        (initializeDB h (emptyDB .memory) { files := [((db, coll), docs)] }).collections
        = some docs) := by
  refine ⟨fun _ _ _ _ => rfl, ?_, ?_⟩
  · intro s fs hm
    rw [dumpChangedCollections, hm, dumpLoop_memory]
  · intro h db coll docs hne
    rw [initializeDB, ensureAdminUser_other _ _ hne]
    show alookup (fullName db coll) [(fullName db coll, docs)] = some docs
    rw [alookup_cons]
    simp

/-- C2 witness: the amended theorem applied to a concrete memory-mode store
and the one-file filesystem. -/
theorem C2_memory_mode_witness :
    persistCollection .memory noFail oneFileFS "mydb" "stuff" [] = some oneFileFS ∧
    ({ emptyDB .memory with changedCollections := ["a.b"] } : DB).storageMode
      = .memory ∧
    dumpChangedCollections noFail { emptyDB .memory with changedCollections := ["a.b"] }
      oneFileFS = (emptyDB .memory, oneFileFS, true) ∧
    ("mydb" ++ "." ++ "stuff" ≠ "auth.users") ∧
    alookup (fullName "mydb" "stuff")
      (initializeDB "h" (emptyDB .memory) { files := [(("mydb", "stuff"), [[("k", .num 7)]])] }).collections
      = some [[("k", .num 7)]] :=
  ⟨(C2_memory_mode_dump_disabled_load_not noFail).1 oneFileFS "mydb" "stuff" [],
    rfl,
    (C2_memory_mode_dump_disabled_load_not noFail).2.1
      { emptyDB .memory with changedCollections := ["a.b"] } oneFileFS rfl,
    by decide,
    (C2_memory_mode_dump_disabled_load_not noFail).2.2 "h" "mydb" "stuff"
      [[("k", .num 7)]] (by decide)⟩

/-- C3 (amended): insertOne, insertMany, deleteOne, find and createIndex
treat an absent user as no check requested — they behave exactly as for a
principal whose check succeeds (the admin wildcard grant) — but updateOne
alone treats an absent user as denied: it returns the permission-denied
sentinel and leaves the store unchanged apart from the collection-creating
facade access itself. -/
theorem C3_absent_user_no_check :
    (∀ (s : DB) (db coll : String) (doc : Doc),
      insertOne s db coll doc none = insertOne s db coll doc (some adminUserVal)) ∧
    (∀ (s : DB) (db coll : String) (docs : List Doc),
      insertMany s db coll docs none = insertMany s db coll docs (some adminUserVal)) ∧
    (∀ (s : DB) (db coll : String) (filter : Doc),
      deleteOne s db coll filter none = deleteOne s db coll filter (some adminUserVal)) ∧
    (∀ (s : DB) (db coll : String) (query : Doc),
      find s db coll query none = find s db coll query (some adminUserVal)) ∧
    (∀ (s : DB) (db coll field : String),
      createIndex s db coll field none = createIndex s db coll field (some adminUserVal)) ∧
    (∀ (s : DB) (db coll : String) (filter update options : Doc),
      updateOne s db coll filter update options none
        = (deniedUpdateResult, ensureCollection s db coll)) := by
  have hfalsy : optFalsy (some adminUserVal) = false := rfl
  refine ⟨?_, ?_, ?_, ?_, ?_, ?_⟩
  · intro s db coll doc
    simp [insertOne, optFalsy, checkPermission, hasPermission_admin, hfalsy]
  · intro s db coll docs
    simp [insertMany, optFalsy, checkPermission, hasPermission_admin, hfalsy]
  · intro s db coll filter
    simp [deleteOne, optFalsy, checkPermission, hasPermission_admin, hfalsy]
  · intro s db coll query
    simp [find, optFalsy, checkPermission, hasPermission_admin, hfalsy]
  · intro s db coll field
    simp [createIndex, optFalsy, checkPermission, hasPermission_admin, hfalsy]
  · intro s db coll filter update options
    simp [updateOne, optFalsy, deniedUpdateResult]

/-- C7 (amended): the matcher is total and fails closed — a clause carrying
an unrecognized operator key fails the document, as does an $in or $nin
clause whose comparison value is not an array — so a malformed query yields
an empty result whenever find takes the full-scan path (no single-key index
applies); on the index path the malformed operator object is instead coerced
to its string form and looked up in the index, which can return documents
(see the counterexample). -/
theorem C7_matcher_fail_closed :
    (∀ (d : Doc) (q₁ q₂ : Doc) (k op : String) (ops : List (String × Value)) (cv : Value),
      (op, cv) ∈ ops → recognizedOp op = false →
      matchQuery d (q₁ ++ (k, .obj ops) :: q₂) = false) ∧
    (∀ (d : Doc) (q₁ q₂ : Doc) (k : String) (ops : List (String × Value)) (cv : Value),
      ("$in", cv) ∈ ops → (∀ xs, cv ≠ .arr xs) →
      matchQuery d (q₁ ++ (k, .obj ops) :: q₂) = false) ∧
    (∀ (d : Doc) (q₁ q₂ : Doc) (k : String) (ops : List (String × Value)) (cv : Value),
      ("$nin", cv) ∈ ops → (∀ xs, cv ≠ .arr xs) →
      matchQuery d (q₁ ++ (k, .obj ops) :: q₂) = false) ∧
    (∀ (s : DB) (db coll : String) (user : Option Value) (query : Doc),
      (∀ d : Doc, matchQuery d query = false) →
      findIndex (ensureCollection s db coll) (fullName db coll) query = none →
      (find s db coll query user).1 = []) := by
  refine ⟨?_, ?_, ?_, ?_⟩
  · intro d q₁ q₂ k op ops cv hmem hop
    exact matchQuery_clause_false q₁ q₂
      (by simpa [clauseHolds] using matchOps_unknown (alookup k d) hmem hop)
  · intro d q₁ q₂ k ops cv hmem harr
    exact matchQuery_clause_false q₁ q₂
      (by simpa [clauseHolds] using matchOps_in_nonarr (alookup k d) hmem harr)
  · intro d q₁ q₂ k ops cv hmem harr
    exact matchQuery_clause_false q₁ q₂
      (by simpa [clauseHolds] using matchOps_nin_nonarr (alookup k d) hmem harr)
  · intro s db coll user query hall hidx
    simp only [find]
    split
    · rw [hidx]
      have hscan : ((alookup (fullName db coll) (ensureCollection s db coll).collections).getD
            []).filterMap
          (fun d => if matchQuery d query then some (some d) else none) = [] :=
        List.filterMap_eq_nil_iff.mpr (fun d _ => by rw [hall d]; simp)
      rcases query with _ | ⟨⟨qk, qv⟩, rest⟩
      · simpa using hscan
      · rcases rest with _ | ⟨e₂, rest₂⟩
        · simpa using hscan
        · simpa using hscan
    · rfl

/-- C7 witness: the fail-closed theorem applied to one unknown-operator
clause, one non-array $in, one non-array $nin, and a full-scan find over a
store with no index. -/
theorem C7_matcher_fail_closed_witness :
    matchQuery [("a", .num 1)] [("f", .obj [("$bogus", .num 1)])] = false ∧
    matchQuery [("a", .num 1)] [("f", .obj [("$in", .num 5)])] = false ∧
    matchQuery [("a", .num 1)] [("f", .obj [("$nin", .str "x")])] = false ∧
    (find (emptyDB .memory) "db" "c" [("f", .obj [("$bogus", .num 1)])] none).1 = [] :=
  ⟨C7_matcher_fail_closed.1 [("a", .num 1)] [] [] "f" "$bogus" [("$bogus", .num 1)] (.num 1)
      (by simp) rfl,
    C7_matcher_fail_closed.2.1 [("a", .num 1)] [] [] "f" [("$in", .num 5)] (.num 5)
      (by simp) (fun _ h => Value.noConfusion h),
    C7_matcher_fail_closed.2.2.1 [("a", .num 1)] [] [] "f" [("$nin", .str "x")] (.str "x")
      (by simp) (fun _ h => Value.noConfusion h),
    C7_matcher_fail_closed.2.2.2 (emptyDB .memory) "db" "c" none
      [("f", .obj [("$bogus", .num 1)])]
      (fun d => C7_matcher_fail_closed.1 d [] [] "f" "$bogus" [("$bogus", .num 1)] (.num 1)
        (by simp) rfl)
      rfl⟩

/-- C8 (amended): for a collection whose database and collection names
contain no dot, dumping the dirty collection and then loading a fresh store
from the resulting filesystem reproduces exactly the same document list —
field values and identifiers included — under the same collection key (a
dotted name is instead truncated by the dump-path split, see the
counterexample). -/
theorem C8_dump_load_roundtrip (db coll : String) (docs : List Doc)
    (hdb : ∀ c ∈ db.toList, c ≠ '.') (hcoll : ∀ c ∈ coll.toList, c ≠ '.') :
    (dumpChangedCollections noFail (singleCollectionStore (fullName db coll) docs)
        emptyFS).2.2 = true ∧
    (dumpChangedCollections noFail (singleCollectionStore (fullName db coll) docs)
        emptyFS).1.changedCollections = [] ∧
    alookup (fullName db coll)
      (loadPersistedData (emptyDB .disk)
        (dumpChangedCollections noFail (singleCollectionStore (fullName db coll) docs)
          emptyFS).2.1).collections = some docs := by
  have hsplit : splitDot (fullName db coll) = [db, coll] := splitDot_fullName hdb hcoll
  have hdata : alookup (fullName db coll) [(fullName db coll, docs)] = some docs := by
    rw [alookup_cons]
    simp
  have hloop : dumpLoop .disk noFail [(fullName db coll, docs)] [fullName db coll] emptyFS
      = ({ files := [((db, coll), docs)] }, true) := by
    rw [dumpLoop, hsplit,
      show ([db, coll] : List String).getD 0 "" = db from rfl,
      show ([db, coll] : List String).getD 1 "" = coll from rfl, hdata]
    rfl
  have hdcc : dumpChangedCollections noFail (singleCollectionStore (fullName db coll) docs)
      emptyFS
      = ({ singleCollectionStore (fullName db coll) docs with changedCollections := [] },
          { files := [((db, coll), docs)] }, true) := by
    rw [dumpChangedCollections,
      show (singleCollectionStore (fullName db coll) docs).storageMode = .disk from rfl,
      show (singleCollectionStore (fullName db coll) docs).collections
        = [(fullName db coll, docs)] from rfl,
      show (singleCollectionStore (fullName db coll) docs).changedCollections
        = [fullName db coll] from rfl,
      hloop]
    rfl
  refine ⟨by rw [hdcc], by rw [hdcc], ?_⟩
  rw [hdcc]
  show alookup (fullName db coll) (aset (db ++ "." ++ coll) docs []) = some docs
  show alookup (fullName db coll) [(fullName db coll, docs)] = some docs
  exact hdata

/-- C8 witness: the round-trip theorem applied to a one-document collection
with dot-free names. -/
theorem C8_dump_load_roundtrip_witness :
    (∀ c ∈ "a".toList, c ≠ '.') ∧ (∀ c ∈ "b".toList, c ≠ '.') ∧
    ((dumpChangedCollections noFail
        (singleCollectionStore (fullName "a" "b") [[("x", .num 1), ("_id", .str "i")]])
        emptyFS).2.2 = true ∧
      (dumpChangedCollections noFail
        (singleCollectionStore (fullName "a" "b") [[("x", .num 1), ("_id", .str "i")]])
        emptyFS).1.changedCollections = [] ∧
      alookup (fullName "a" "b")
        (loadPersistedData (emptyDB .disk)
          (dumpChangedCollections noFail
            (singleCollectionStore (fullName "a" "b") [[("x", .num 1), ("_id", .str "i")]])
            emptyFS).2.1).collections = some [[("x", .num 1), ("_id", .str "i")]]) :=
  ⟨by decide, by decide,
    C8_dump_load_roundtrip "a" "b" [[("x", .num 1), ("_id", .str "i")]]
      (by decide) (by decide)⟩

/-- C6: a single deleteOne call removes every document matching the filter
that was present at call time, not just the first; the returned value is the
count of removed documents, and the remaining collection is exactly the
order-preserving subsequence of non-matching documents. -/
theorem C6_delete_all_matches (s : DB) (db coll : String) (filter : Doc)
    (user : Option Value)
    (hok : (optFalsy user || checkPermission user (fullName db coll) "write") = true) :
    (deleteOne s db coll filter user).1
      = ((alookup (fullName db coll) (ensureCollection s db coll).collections).getD
          []).countP (fun d => matchQuery d filter) ∧
    alookup (fullName db coll) (deleteOne s db coll filter user).2.collections
      = some (((alookup (fullName db coll) (ensureCollection s db coll).collections).getD
          []).filter (fun d => !matchQuery d filter)) ∧
    (((alookup (fullName db coll) (ensureCollection s db coll).collections).getD
        []).filter (fun d => !matchQuery d filter)).Sublist
      ((alookup (fullName db coll) (ensureCollection s db coll).collections).getD []) := by
  refine ⟨?_, ?_, List.filter_sublist _⟩
  · simp only [deleteOne, hok, if_true, deleteLoop_eq]
  · simp only [deleteOne, hok, if_true, deleteLoop_eq]
    exact alookup_aset_self _ _ _

/-- C6 witness: deleting with the empty filter (absent user) removes both
stored documents of the two-document store. -/
theorem C6_delete_all_matches_witness :
    ((optFalsy none || checkPermission none (fullName "test" "one") "write") = true) ∧
    ((deleteOne alphaBetaStore "test" "one" [] none).1
        = ((alookup (fullName "test" "one")
            (ensureCollection alphaBetaStore "test" "one").collections).getD
            []).countP (fun d => matchQuery d []) ∧
      alookup (fullName "test" "one")
          (deleteOne alphaBetaStore "test" "one" [] none).2.collections
        = some (((alookup (fullName "test" "one")
            (ensureCollection alphaBetaStore "test" "one").collections).getD
            []).filter (fun d => !matchQuery d [])) ∧
      (((alookup (fullName "test" "one")
          (ensureCollection alphaBetaStore "test" "one").collections).getD
          []).filter (fun d => !matchQuery d [])).Sublist
        ((alookup (fullName "test" "one")
          (ensureCollection alphaBetaStore "test" "one").collections).getD [])) ∧
    (deleteOne alphaBetaStore "test" "one" [] none).1 = 2 :=
  ⟨rfl, C6_delete_all_matches alphaBetaStore "test" "one" [] none rfl, rfl⟩

theorem filter_key_eq {l : Doc} {k : String} {v : Value}
    (hn : (keysOf l).Nodup) (hl : alookup k l = some v) :
    l.filter (fun e => e.1 = k) = [(k, v)] := by
  induction l with
  | nil => simp [alookup] at hl
  | cons e rest ih =>
    rw [alookup_cons] at hl
    have hcons := List.nodup_cons.mp (keysOf_cons e rest ▸ hn)
    by_cases he : e.1 = k
    · rw [if_pos he] at hl
      have hv : e.2 = v := Option.some.inj hl
      have hknot : k ∉ keysOf rest := he ▸ hcons.1
      have hrest : rest.filter (fun e => e.1 = k) = [] :=
        List.filter_eq_nil_iff.mpr (fun x hx hxk => by
          have hxk₁ : x.1 = k := by simpa using hxk
          exact hknot (hxk₁ ▸ List.mem_map_of_mem _ hx))
      rw [List.filter_cons_of_pos (by simpa using he), hrest]
      rw [show e = (e.1, e.2) from rfl, he, hv]
    · rw [if_neg he] at hl
      rw [List.filter_cons_of_neg (by simpa using he)]
      exact ih hcons.2 hl

/-- C5: when at least one document matches the filter, updateOne modifies
only the first match in collection order, leaving every other document in
place; the modified document keeps its original identifier in both update
styles, and under a full replacement its remaining fields are exactly the
update fields (minus any identifier the update carried) — all prior non-id
fields are gone. -/
theorem C5_update_first_match_only (s : DB) (db coll : String)
    (filter update options : Doc) (user : Option Value)
    (pre post : List Doc) (d : Doc) (idv : Value)
    (husr : optFalsy user = false)
    (hperm : checkPermission user (fullName db coll) "write" = true)
    (hdocs : (alookup (fullName db coll) (ensureCollection s db coll).collections).getD []
      = pre ++ d :: post)
    (hpre : ∀ x ∈ pre, matchQuery x filter = false)
    (hd : matchQuery d filter = true)
    (hnodup : (keysOf d).Nodup)
    (hid : alookup "_id" d = some idv) :
    (updateOne s db coll filter update options user).1
      = { matchedCount := 1, modifiedCount := 1, acknowledged := true } ∧
    alookup (fullName db coll) (updateOne s db coll filter update options user).2.collections
      = some (pre ++ applyUpdate update d :: post) ∧
    alookup "_id" (applyUpdate update d) = some idv ∧
    (alookup "$set" update = none →
      applyUpdate update d = ("_id", idv) :: aerase "_id" (objOf update)) := by
  have hmain : updateOne s db coll filter update options user
      = ({ matchedCount := 1, modifiedCount := 1, acknowledged := true },
          { ensureCollection s db coll with
              collections := aset (fullName db coll) (pre ++ applyUpdate update d :: post)
                (ensureCollection s db coll).collections,
              changedCollections := addChanged (fullName db coll)
                (ensureCollection s db coll).changedCollections }) := by
    rw [updateOne.eq_def]
    simp only [husr, hperm, Bool.not_true, Bool.or_false, Bool.false_or, hdocs,
      updateFirstMatch_split (applyUpdate update) d post hpre hd]
    rfl
  have happly : alookup "_id" (applyUpdate update d) = some idv := by
    rw [applyUpdate.eq_def, hid]
    cases alookup "$set" update with
    | none => exact alookup_aset_self _ _ _
    | some sv =>
      by_cases hsv : jsFalsy sv = true
      · simp only [hsv, if_true]
        exact alookup_aset_self _ _ _
      · simp only [Bool.not_eq_true] at hsv
        simp only [hsv, Bool.false_eq_true, if_false]
        exact alookup_aset_self _ _ _
  refine ⟨by rw [hmain], by rw [hmain]; exact alookup_aset_self _ _ _, happly, ?_⟩
  intro hnoset
  rw [applyUpdate.eq_def, hnoset, hid]
  have hrepl : replaceWith update d = ("_id", idv) :: aerase "_id" (objOf update) := by
    rw [replaceWith, filter_key_eq hnodup hid]
    have hsrc : ∀ x ∈ keysOf (aerase "_id" (objOf update)), x ∉ keysOf [(("_id" : String), idv)] := by
      intro x hx hmem
      have hx₁ : x = "_id" := by simpa [keysOf] using hmem
      exact notmem_keysOf_aerase "_id" (objOf update) (hx₁ ▸ hx)
    rw [objAssign_disjoint _ _ hsrc
      (keysOf_aerase_nodup _ (keysOf_objOf_nodup update))]
    rfl
  rw [hrepl]
  show aset "_id" idv (("_id", idv) :: aerase "_id" (objOf update))
    = ("_id", idv) :: aerase "_id" (objOf update)
  rw [aset_cons]
  simp

/-- C5 witness: the first-match theorem applied to the two-document store,
replacing the Alpha document wholesale. -/
theorem C5_update_first_match_only_witness :
    optFalsy (some adminUserVal) = false ∧
    checkPermission (some adminUserVal) (fullName "test" "one") "write" = true ∧
    (alookup (fullName "test" "one")
        (ensureCollection alphaBetaStore "test" "one").collections).getD []
      = [] ++ alphaStoredDoc :: [betaStoredDoc] ∧
    matchQuery alphaStoredDoc [("name", .str "Alpha")] = true ∧
    (keysOf alphaStoredDoc).Nodup ∧
    alookup "_id" alphaStoredDoc = some (.str (objectIdOf 0)) ∧
    ((updateOne alphaBetaStore "test" "one" [("name", .str "Alpha")] [("fresh", .num 9)] []
        (some adminUserVal)).1
      = { matchedCount := 1, modifiedCount := 1, acknowledged := true } ∧
      alookup (fullName "test" "one")
        (updateOne alphaBetaStore "test" "one" [("name", .str "Alpha")] [("fresh", .num 9)] []
          (some adminUserVal)).2.collections
        = some ([] ++ applyUpdate [("fresh", .num 9)] alphaStoredDoc :: [betaStoredDoc]) ∧
      alookup "_id" (applyUpdate [("fresh", .num 9)] alphaStoredDoc)
        = some (.str (objectIdOf 0)) ∧
      (alookup "$set" ([("fresh", Value.num 9)] : Doc) = none →
        applyUpdate [("fresh", .num 9)] alphaStoredDoc
          = ("_id", .str (objectIdOf 0)) :: aerase "_id" (objOf [("fresh", .num 9)]))) :=
  ⟨rfl, rfl, rfl, rfl, by decide, rfl,
    C5_update_first_match_only alphaBetaStore "test" "one" [("name", .str "Alpha")]
      [("fresh", .num 9)] [] (some adminUserVal) [] [betaStoredDoc] alphaStoredDoc
      (Value.str (objectIdOf 0)) rfl rfl rfl (by simp) rfl (by decide) rfl⟩

/-- C4: updateOne with upsert true and no matching document appends exactly
one new document — the collection grows by one — whose fields are the filter
object overlaid by the update $set fields (by the whole update when there is
no $set) with any caller-supplied identifier removed and a freshly drawn
identifier attached last; the result reports the upsert with that id, and
since the fresh id differs from every caller-supplied identifier value (the
hypothesis the random generator is relied on for), so does the stored one. -/
theorem C4_upsert_inserts_one (s : DB) (db coll : String)
    (filter update options : Doc) (user : Option Value)
    (husr : optFalsy user = false)
    (hperm : checkPermission user (fullName db coll) "write" = true)
    (hup : alookup "upsert" options = some (.bool true))
    (hnone : ∀ x ∈ (alookup (fullName db coll)
      (ensureCollection s db coll).collections).getD [], matchQuery x filter = false)
    (hfresh : Value.str (objectIdOf s.nextId) ∉ suppliedIds filter update) :
    (updateOne s db coll filter update options user).1
      = { matchedCount := 0, modifiedCount := 1,
          upsertedId := some (objectIdOf s.nextId), acknowledged := true,
          upserted := true } ∧
    alookup (fullName db coll)
        (updateOne s db coll filter update options user).2.collections
      = some ((alookup (fullName db coll) (ensureCollection s db coll).collections).getD []
          ++ [upsertBase filter update ++ [("_id", .str (objectIdOf s.nextId))]]) ∧
    ((alookup (fullName db coll)
        (updateOne s db coll filter update options user).2.collections).getD []).length
      = ((alookup (fullName db coll)
          (ensureCollection s db coll).collections).getD []).length + 1 ∧
    alookup "_id" (upsertBase filter update ++ [("_id", .str (objectIdOf s.nextId))])
      = some (.str (objectIdOf s.nextId)) ∧
    (∀ v ∈ suppliedIds filter update,
      alookup "_id" (upsertBase filter update ++ [("_id", .str (objectIdOf s.nextId))])
        ≠ some v) ∧
    (∀ sf, alookup "$set" update = some (.obj sf) →
      upsertBase filter update = aerase "_id" (objAssign (objOf filter) sf)) ∧
    (alookup "$set" update = none →
      upsertBase filter update = aerase "_id" (objAssign (objOf filter) update)) := by
  have hnv : alookup "_id" (upsertBase filter update) = none := alookup_aerase_self _ _
  have haset : aset "_id" (Value.str (objectIdOf s.nextId)) (upsertBase filter update)
      = upsertBase filter update ++ [("_id", .str (objectIdOf s.nextId))] :=
    aset_eq_append _ hnv
  have hmatch : updateFirstMatch filter (applyUpdate update)
      ((alookup (fullName db coll) (ensureCollection s db coll).collections).getD [])
      = none := updateFirstMatch_none _ hnone
  have hmain : updateOne s db coll filter update options user
      = ({ matchedCount := 0, modifiedCount := 1,
            upsertedId := some (objectIdOf s.nextId), acknowledged := true,
            upserted := true },
          { ensureCollection s db coll with
              nextId := (ensureCollection s db coll).nextId + 1,
              collections := aset (fullName db coll)
                (((alookup (fullName db coll)
                    (ensureCollection s db coll).collections).getD [])
                  ++ [aset "_id" (.str (objectIdOf s.nextId)) (upsertBase filter update)])
                (ensureCollection s db coll).collections,
              changedCollections := addChanged (fullName db coll)
                (ensureCollection s db coll).changedCollections }) := by
    rw [updateOne.eq_def]
    simp only [husr, hperm, Bool.not_true, Bool.or_false, Bool.false_or, hup, hmatch,
      genId, ensureCollection_nextId]
    rfl
  refine ⟨by rw [hmain], ?_, ?_, ?_, ?_, ?_, ?_⟩
  · rw [hmain]
    show alookup (fullName db coll) (aset (fullName db coll) _ _) = _
    rw [alookup_aset_self, haset]
  · rw [hmain]
    show ((alookup (fullName db coll) (aset (fullName db coll) _ _)).getD []).length = _
    rw [alookup_aset_self]
    simp
  · rw [← haset]
    exact alookup_aset_self _ _ _
  · intro v hv heq
    rw [← haset, alookup_aset_self] at heq
    exact hfresh ((Option.some.inj heq) ▸ hv)
  · intro sf hset
    rw [upsertBase.eq_def, hset]
    rfl
  · intro hset
    rw [upsertBase.eq_def, hset]

/-- C4 witness: the upsert theorem applied to an empty store with a
name-filter and an age $set. -/
theorem C4_upsert_inserts_one_witness :
    optFalsy (some adminUserVal) = false ∧
    checkPermission (some adminUserVal) (fullName "d" "c") "write" = true ∧
    alookup "upsert" [("upsert", Value.bool true)] = some (.bool true) ∧
    (∀ x ∈ (alookup (fullName "d" "c")
        (ensureCollection (emptyDB .memory) "d" "c").collections).getD [],
      matchQuery x [("name", .str "Zeta")] = false) ∧
    Value.str (objectIdOf (emptyDB .memory).nextId)
      ∉ suppliedIds [("name", .str "Zeta")] [("$set", .obj [("age", .num 42)])] ∧
    ((updateOne (emptyDB .memory) "d" "c" [("name", .str "Zeta")]
        [("$set", .obj [("age", .num 42)])] [("upsert", .bool true)]
        (some adminUserVal)).1
      = { matchedCount := 0, modifiedCount := 1, upsertedId := some (objectIdOf 0),
          acknowledged := true, upserted := true }) := by
  have hdocs0 : (alookup (fullName "d" "c")
      (ensureCollection (emptyDB .memory) "d" "c").collections).getD [] = ([] : List Doc) :=
    rfl
  have hnone : ∀ x ∈ (alookup (fullName "d" "c")
      (ensureCollection (emptyDB .memory) "d" "c").collections).getD [],
      matchQuery x [("name", Value.str "Zeta")] = false := by
    rw [hdocs0]
    intro x hx
    exact absurd hx (List.not_mem_nil x)
  have hsupp : suppliedIds [("name", Value.str "Zeta")]
      [("$set", Value.obj [("age", Value.num 42)])] = [] := rfl
  have hfr : Value.str (objectIdOf (emptyDB .memory).nextId)
      ∉ suppliedIds [("name", Value.str "Zeta")] [("$set", Value.obj [("age", Value.num 42)])] := by
    rw [hsupp]
    exact List.not_mem_nil _
  exact ⟨rfl, rfl, rfl, hnone, hfr,
    (C4_upsert_inserts_one (emptyDB .memory) "d" "c" [("name", .str "Zeta")]
      [("$set", .obj [("age", .num 42)])] [("upsert", .bool true)] (some adminUserVal)
      rfl rfl rfl hnone hfr).1⟩

/-- C10: registerUser with an empty roles list stores the new user with the
single default grant — wildcard resource, read permission only — so the
stored user passes the read check on every resource of every database and
fails the write (and admin) check on every resource. -/
theorem C10_register_default_role (hash : String → String) (s : DB) (u p : String)
    (hno : (find s "auth" "users" [("username", .str u)] none).1 = []) :
    ∃ (d : Doc) (s₁ : DB) (prior : List Doc),
      registerUser hash s u p [] = .ok (some d, s₁) ∧
      alookup "roles" d = some (.arr [defaultRoleGrant]) ∧
      alookup (fullName "auth" "users") s₁.collections = some (prior ++ [d]) ∧
      (∀ res : String, hasPermission (some (Value.obj d)) res "read" = true) ∧
      (∀ res : String, hasPermission (some (Value.obj d)) res "write" = false) ∧
      (∀ res : String, hasPermission (some (Value.obj d)) res "admin" = false) := by
  set fr := find s "auth" "users" [("username", Value.str u)] none with hfr
  set sE := ensureCollection fr.2 "auth" "users" with hsE
  set nd : Doc := [("username", Value.str u), ("password", Value.str (hash p)),
    ("roles", Value.arr [defaultRoleGrant]), ("_id", Value.str (objectIdOf sE.nextId))]
    with hnd
  refine ⟨nd,
    ({ sE with
      nextId := sE.nextId + 1,
      collections := aset (fullName "auth" "users")
        (((alookup (fullName "auth" "users") sE.collections).getD []) ++ [nd])
        sE.collections,
      changedCollections := addChanged (fullName "auth" "users") sE.changedCollections } : DB),
    (alookup (fullName "auth" "users") sE.collections).getD [], ?_, rfl, ?_, ?_, ?_, ?_⟩
  · rw [registerUser.eq_def, ← hfr]
    simp only [hno]
    rfl
  · exact alookup_aset_self _ _ _
  · intro res
    simp [hnd, hasPermission, jsFalsy, alookup, defaultRoleGrant, roleResourceIs,
      rolePermInclude, jsStrictEq]
  · intro res
    simp [hnd, hasPermission, jsFalsy, alookup, defaultRoleGrant, roleResourceIs,
      rolePermInclude, jsStrictEq]
  · intro res
    simp [hnd, hasPermission, jsFalsy, alookup, defaultRoleGrant, roleResourceIs,
      rolePermInclude, jsStrictEq]

/-- C10 witness: registration of a fresh username on the empty store. -/
theorem C10_register_default_role_witness :
    (find (emptyDB .memory) "auth" "users" [("username", .str "u")] none).1 = [] ∧
    (∃ (d : Doc) (s₁ : DB) (prior : List Doc),
      registerUser (fun p => "H" ++ p) (emptyDB .memory) "u" "p" [] = .ok (some d, s₁) ∧
      alookup "roles" d = some (.arr [defaultRoleGrant]) ∧
      alookup (fullName "auth" "users") s₁.collections = some (prior ++ [d]) ∧
      (∀ res : String, hasPermission (some (Value.obj d)) res "read" = true) ∧
      (∀ res : String, hasPermission (some (Value.obj d)) res "write" = false) ∧
      (∀ res : String, hasPermission (some (Value.obj d)) res "admin" = false)) :=
  ⟨rfl, C10_register_default_role (fun p => "H" ++ p) (emptyDB .memory) "u" "p" rfl⟩

end JsMongo
